import Mathlib

/-!
Verification development for the block-level document comparison engine
(`src/utils/blockComparison.js`).  The definitions below are a shallow
embedding of the first (final) draft of that file: the two-phase block
matcher `matchBlocksBySimilarity`, the similarity service
`calculateTextSimilarity`, the paragraph word-diff renderer
`compareAndHighlightParagraphs`, the classifier/assembler
`performBlockComparison`, and the fail-open boundary `compareDocumentBlocks`.
JS numbers are modelled as `ℚ`, JS strings as `String`, DOM block records as
the `Block` structure, and JS exception propagation as `Except`.
-/

namespace BlockComparison

set_option maxRecDepth 8000

/-- Tag of one diff operation, as produced by the external diff primitive.
The source represents these as the numbers `1` (addition), `-1` (deletion)
and `0` (no change); here they are an inductive type. -/
inductive DiffTag where
  | equal : DiffTag
  | insert : DiffTag
  | delete : DiffTag
deriving DecidableEq, Repr

/-- One diff operation `[operation, text]` of the external diff primitive. -/
structure DiffEntry where
  tag : DiffTag
  text : String
deriving DecidableEq, Repr

/-- Longest common leading run of two character lists. -/
def commonLead : List Char → List Char → List Char
  | a :: as, b :: bs => if a = b then a :: commonLead as bs else []
  | _, _ => []

/-- Builds the optional diff entry for a (possibly empty) span: the external
primitive emits no entry for an empty span. -/
def spanEntry (t : DiffTag) (cs : List Char) : List DiffEntry :=
  if cs.isEmpty then [] else [⟨t, ⟨cs⟩⟩]

/-- Modelled from the spec: the external character-diff primitive
(`diff-match-patch`'s `diff_main` followed by `diff_cleanupSemantic`), which
the spec places out of scope and assumes correct — "a diff sequence
generator" whose equal/delete texts concatenate to the left input and whose
equal/insert texts concatenate to the right input (spec §3 DiffOp, §4.1).
It is modelled as: identical inputs give a single equal span, otherwise the
common leading and trailing runs are emitted as equal spans around one
delete span (left remainder) and one insert span (right remainder).  This
satisfies the primitive's contract and agrees with the real primitive on
the concrete inputs used below. -/
def diffMain (a b : String) : List DiffEntry :=
  if a = b then (if a = "" then [] else [⟨.equal, a⟩])
  else
    let pre := commonLead a.data b.data
    let a1 := a.data.drop pre.length
    let b1 := b.data.drop pre.length
    let sufRev := commonLead a1.reverse b1.reverse
    let aMid := (a1.reverse.drop sufRev.length).reverse
    let bMid := (b1.reverse.drop sufRev.length).reverse
    spanEntry .equal pre ++ spanEntry .delete aMid ++ spanEntry .insert bMid
      ++ spanEntry .equal sufRev.reverse

/-- Model of `diff_levenshtein` of the external primitive: runs of insertions and
deletions between equalities contribute the maximum of the two run lengths. -/
def diffLevenshtein (ds : List DiffEntry) : Nat :=
  go 0 0 0 ds
where
  go (lev ins del : Nat) : List DiffEntry → Nat
    | [] => lev + max ins del
    | e :: rest =>
      match e.tag with
      | .insert => go lev (ins + e.text.length) del rest
      | .delete => go lev ins (del + e.text.length) rest
      | .equal => go (lev + max ins del) 0 0 rest

/-- Concatenation of the texts of the equal and delete spans — the literal
text of the left side of a diff, with annotations stripped. -/
def leftLiteral (ds : List DiffEntry) : String :=
  String.join ((ds.filter (fun e => !(e.tag == DiffTag.insert))).map (·.text))

/-- Concatenation of the texts of the equal and insert spans — the literal
text of the right side of a diff, with annotations stripped. -/
def rightLiteral (ds : List DiffEntry) : String :=
  String.join ((ds.filter (fun e => !(e.tag == DiffTag.delete))).map (·.text))

lemma string_data_append (a b : String) : (a ++ b).data = a.data ++ b.data := rfl

lemma string_eq_of_data {a b : String} (h : a.data = b.data) : a = b := by
  cases a
  cases b
  exact congrArg String.mk h

lemma string_join_nil : String.join ([] : List String) = "" := rfl

lemma string_join_go :
    ∀ (xs : List String) (acc : String),
      xs.foldl (fun r s => r ++ s) acc = acc ++ String.join xs := by
  intro xs
  induction xs with
  | nil =>
    intro acc
    apply string_eq_of_data
    simp [string_join_nil, string_data_append]
  | cons x xs ih =>
    intro acc
    show (x :: xs).foldl (fun r s => r ++ s) acc = acc ++ String.join (x :: xs)
    have h1 : (x :: xs).foldl (fun r s => r ++ s) acc
        = xs.foldl (fun r s => r ++ s) (acc ++ x) := rfl
    rw [h1, ih]
    apply string_eq_of_data
    have h3 : String.join (x :: xs) = x ++ String.join xs := by
      show (x :: xs).foldl (fun r s => r ++ s) "" = x ++ String.join xs
      have : (x :: xs).foldl (fun r s => r ++ s) ""
          = xs.foldl (fun r s => r ++ s) ("" ++ x) := rfl
      rw [this, ih]
      apply string_eq_of_data
      simp [string_data_append]
    rw [h3]
    simp [string_data_append]

lemma string_join_cons (x : String) (xs : List String) :
    String.join (x :: xs) = x ++ String.join xs := by
  show (x :: xs).foldl (fun r s => r ++ s) "" = x ++ String.join xs
  have : (x :: xs).foldl (fun r s => r ++ s) ""
      = xs.foldl (fun r s => r ++ s) ("" ++ x) := rfl
  rw [this, string_join_go]
  apply string_eq_of_data
  simp [string_data_append]

lemma string_join_append (xs ys : List String) :
    String.join (xs ++ ys) = String.join xs ++ String.join ys := by
  induction xs with
  | nil =>
    apply string_eq_of_data
    simp [string_join_nil, string_data_append]
  | cons x xs ih =>
    rw [List.cons_append, string_join_cons, string_join_cons, ih]
    apply string_eq_of_data
    simp [string_data_append]

lemma commonLead_comm : ∀ a b : List Char, commonLead a b = commonLead b a := by
  intro a
  induction a with
  | nil => intro b; cases b <;> simp [commonLead]
  | cons x xs ih =>
    intro b
    cases b with
    | nil => simp [commonLead]
    | cons y ys =>
      by_cases h : x = y
      · subst h; simp [commonLead, ih]
      · simp [commonLead, h, mt Eq.symm h]

lemma commonLead_append_drop :
    ∀ a b : List Char, commonLead a b ++ a.drop (commonLead a b).length = a := by
  intro a
  induction a with
  | nil => intro b; cases b <;> simp [commonLead]
  | cons x xs ih =>
    intro b
    cases b with
    | nil => simp [commonLead]
    | cons y ys =>
      by_cases h : x = y
      · simp only [commonLead, if_pos h, List.length_cons, List.cons_append,
          List.drop_succ_cons]
        exact congrArg (x :: ·) (ih ys)
      · simp [commonLead, h]

lemma leftLiteral_append (xs ys : List DiffEntry) :
    leftLiteral (xs ++ ys) = leftLiteral xs ++ leftLiteral ys := by
  simp [leftLiteral, List.filter_append, string_join_append]

lemma rightLiteral_append (xs ys : List DiffEntry) :
    rightLiteral (xs ++ ys) = rightLiteral xs ++ rightLiteral ys := by
  simp [rightLiteral, List.filter_append, string_join_append]

lemma string_empty_eq_mk_nil : ("" : String) = (⟨[]⟩ : String) := rfl

lemma leftLiteral_spanEntry_equal (cs : List Char) :
    leftLiteral (spanEntry .equal cs) = ⟨cs⟩ := by
  cases cs <;> rfl

lemma leftLiteral_spanEntry_delete (cs : List Char) :
    leftLiteral (spanEntry .delete cs) = ⟨cs⟩ := by
  cases cs <;> rfl

lemma leftLiteral_spanEntry_insert (cs : List Char) :
    leftLiteral (spanEntry .insert cs) = "" := by
  cases cs <;> rfl

lemma rightLiteral_spanEntry_equal (cs : List Char) :
    rightLiteral (spanEntry .equal cs) = ⟨cs⟩ := by
  cases cs <;> rfl

lemma rightLiteral_spanEntry_insert (cs : List Char) :
    rightLiteral (spanEntry .insert cs) = ⟨cs⟩ := by
  cases cs <;> rfl

lemma rightLiteral_spanEntry_delete (cs : List Char) :
    rightLiteral (spanEntry .delete cs) = "" := by
  cases cs <;> rfl

/-- The modelled diff primitive satisfies the spec's DiffOp contract:
the left-side literal text reconstructs the left input. -/
lemma diffMain_leftLiteral (a b : String) : leftLiteral (diffMain a b) = a := by
  by_cases hab : a = b
  · subst hab
    by_cases ha : a = ""
    · subst ha; simp [diffMain, leftLiteral, string_join_nil]
    · simp [diffMain, ha, leftLiteral, String.join]
  · simp only [diffMain, if_neg hab]
    set pre := commonLead a.data b.data with hpre
    set a1 := a.data.drop pre.length with ha1
    set b1 := b.data.drop pre.length with hb1
    set sufRev := commonLead a1.reverse b1.reverse with hsuf
    set aMid := (a1.reverse.drop sufRev.length).reverse with hmid
    rw [leftLiteral_append, leftLiteral_append, leftLiteral_append]
    rw [leftLiteral_spanEntry_equal, leftLiteral_spanEntry_delete,
      leftLiteral_spanEntry_insert, leftLiteral_spanEntry_equal]
    have hsplit : aMid ++ sufRev.reverse = a1 := by
      have h1 : sufRev ++ a1.reverse.drop sufRev.length = a1.reverse := by
        rw [hsuf]; exact commonLead_append_drop a1.reverse b1.reverse
      calc aMid ++ sufRev.reverse
          = (sufRev ++ a1.reverse.drop sufRev.length).reverse := by
            rw [hmid, List.reverse_append]
        _ = a1.reverse.reverse := by rw [h1]
        _ = a1 := List.reverse_reverse a1
    have h2 : pre ++ a1 = a.data := by
      rw [hpre, ha1]; exact commonLead_append_drop a.data b.data
    apply string_eq_of_data
    show pre ++ aMid ++ [] ++ sufRev.reverse = a.data
    rw [List.append_nil, List.append_assoc, hsplit, h2]

/-- The modelled diff primitive satisfies the spec's DiffOp contract:
the right-side literal text reconstructs the right input. -/
lemma diffMain_rightLiteral (a b : String) : rightLiteral (diffMain a b) = b := by
  by_cases hab : a = b
  · subst hab
    by_cases ha : a = ""
    · subst ha; simp [diffMain, rightLiteral, string_join_nil]
    · simp [diffMain, ha, rightLiteral, String.join]
  · simp only [diffMain, if_neg hab]
    set pre := commonLead a.data b.data with hpre
    set a1 := a.data.drop pre.length with ha1
    set b1 := b.data.drop pre.length with hb1
    set sufRev := commonLead a1.reverse b1.reverse with hsuf
    set bMid := (b1.reverse.drop sufRev.length).reverse with hmid
    rw [rightLiteral_append, rightLiteral_append, rightLiteral_append]
    rw [rightLiteral_spanEntry_equal, rightLiteral_spanEntry_delete,
      rightLiteral_spanEntry_insert, rightLiteral_spanEntry_equal]
    have hsplit : bMid ++ sufRev.reverse = b1 := by
      have h1 : sufRev ++ b1.reverse.drop sufRev.length = b1.reverse := by
        rw [hsuf, commonLead_comm a1.reverse b1.reverse]
        exact commonLead_append_drop b1.reverse a1.reverse
      calc bMid ++ sufRev.reverse
          = (sufRev ++ b1.reverse.drop sufRev.length).reverse := by
            rw [hmid, List.reverse_append]
        _ = b1.reverse.reverse := by rw [h1]
        _ = b1 := List.reverse_reverse b1
    have h2 : pre ++ b1 = b.data := by
      rw [hb1, hpre, commonLead_comm a.data b.data]
      exact commonLead_append_drop b.data a.data
    apply string_eq_of_data
    show pre ++ [] ++ bMid ++ sufRev.reverse = b.data
    rw [List.append_nil, List.append_assoc, hsplit, h2]

/-- One extracted block (`createBlockInfo`): its tag name (`p`, `table` or
`img`), its text content (`element.textContent || ''`), its `src` attribute
value for images (empty for other tags, matching `getAttribute('src') || ''`),
its generated id (`generateBlockId`), and its index among its parent's
children.  The cloned DOM element, outer HTML and render dimensions are
presentational and not modelled. -/
structure Block where
  type : String
  content : String
  src : String
  id : String
  index : Nat
deriving DecidableEq, Repr

/-- One entry of the matcher's `matches` array:
`{ left, right, similarity }`. -/
structure MatchPair where
  left : Block
  right : Block
  similarity : ℚ
deriving DecidableEq, Repr

/-- The matcher's result `{ matches, leftUnmatched, rightUnmatched }`
(the `matches` field is named `matchedPairs` here because `matches` is a
reserved word in Lean). -/
structure MatchResult where
  matchedPairs : List MatchPair
  leftUnmatched : List Block
  rightUnmatched : List Block
deriving DecidableEq, Repr

/-- The predicate of the exact-match pass:
`rightBlock.type === leftBlock.type &&
 rightBlock.content.trim() === leftBlock.content.trim()`. -/
def exactMatchPred (leftBlock rightBlock : Block) : Bool :=
  rightBlock.type == leftBlock.type
    && rightBlock.content.trim == leftBlock.content.trim

/-- Removal of the first block with the given id from a working list —
`findIndex(b => b.id === id)` followed by `splice(index, 1)` when the index
is non-negative (the list is returned unchanged when no block has the id). -/
def eraseById (i : String) : List Block → List Block
  | [] => []
  | b :: l => if b.id == i then l else b :: eraseById i l

/-- Embedding of `calculateTextSimilarity`: 1 when both strings are empty (falsy), 0 when
exactly one is, otherwise `max(0, 1 - levenshtein/maxLength)` where the
levenshtein cost comes from diffing the trimmed strings and `maxLength` is
the maximum of the untrimmed lengths. -/
def calculateTextSimilarity (text1 text2 : String) : ℚ :=
  if text1 == "" && text2 == "" then 1
  else if text1 == "" || text2 == "" then 0
  else
    let lev := diffLevenshtein (diffMain text1.trim text2.trim)
    let maxLength := max text1.length text2.length
    if maxLength > 0 then max 0 (1 - (lev : ℚ) / (maxLength : ℚ)) else 0

/-- The per-candidate score of `findBestMatch`: for images, 1 when the `src`
attributes are equal and 0 otherwise; for other types the text similarity of
the contents.  The similarity function is a parameter of the embedding; the
source closes over `calculateTextSimilarity`. -/
def pairScoreWith (sim : String → String → ℚ) (block candidate : Block) : ℚ :=
  if block.type == "img" then (if block.src == candidate.src then 1 else 0)
  else sim block.content candidate.content

/-- Embedding of `findBestMatch`: scans all candidates, skipping those of a different
type, and keeps the first candidate whose score strictly exceeds the best
score so far (initially 0, with no block). -/
def findBestMatchWith (sim : String → String → ℚ) (block : Block)
    (candidates : List Block) : Option Block × ℚ :=
  candidates.foldl
    (fun best candidate =>
      if !(block.type == candidate.type) then best
      else
        let score := pairScoreWith sim block candidate
        if score > best.2 then (some candidate, score) else best)
    (none, (0 : ℚ))

/-- First pass of `matchBlocksBySimilarity`: iterate the left blocks in
order; for each, `find` the first right block still in `rightUnmatched`
satisfying `exactMatchPred`; on a hit, push `{left, right, similarity: 1.0}`
and remove one block by id from each working list. -/
def phase1 : List Block → List Block → List Block → MatchResult
  | [], leftUnmatched, rightUnmatched => ⟨[], leftUnmatched, rightUnmatched⟩
  | b :: rest, leftUnmatched, rightUnmatched =>
    match rightUnmatched.find? (fun rb => exactMatchPred b rb) with
    | some m =>
      let res := phase1 rest (eraseById b.id leftUnmatched)
        (eraseById m.id rightUnmatched)
      ⟨⟨b, m, 1⟩ :: res.matchedPairs, res.leftUnmatched, res.rightUnmatched⟩
    | none => phase1 rest leftUnmatched rightUnmatched

/-- Second pass of `matchBlocksBySimilarity`: iterate a snapshot of the
still-unmatched left blocks; for each, take `findBestMatch` over the current
`rightUnmatched` and, when its score exceeds the 0.2 threshold, push the
pair and remove one block by id from each working list.  (When no candidate
was chosen the score is 0, so the threshold test fails.) -/
def phase2With (sim : String → String → ℚ) :
    List Block → List Block → List Block → MatchResult
  | [], leftUnmatched, rightUnmatched => ⟨[], leftUnmatched, rightUnmatched⟩
  | b :: rest, leftUnmatched, rightUnmatched =>
    match findBestMatchWith sim b rightUnmatched with
    | (some m, score) =>
      if score > 1/5 then
        let res := phase2With sim rest (eraseById b.id leftUnmatched)
          (eraseById m.id rightUnmatched)
        ⟨⟨b, m, score⟩ :: res.matchedPairs, res.leftUnmatched, res.rightUnmatched⟩
      else phase2With sim rest leftUnmatched rightUnmatched
    | (none, _) => phase2With sim rest leftUnmatched rightUnmatched

/-- Embedding of `matchBlocksBySimilarity`, parameterized by the similarity function:
the exact pass over all left blocks, then the fuzzy pass over a snapshot of
the remaining ones, accumulating into one `matches` list. -/
def matchBlocksBySimilarityWith (sim : String → String → ℚ)
    (leftBlocks rightBlocks : List Block) : MatchResult :=
  let r1 := phase1 leftBlocks leftBlocks rightBlocks
  let r2 := phase2With sim r1.leftUnmatched r1.leftUnmatched r1.rightUnmatched
  ⟨r1.matchedPairs ++ r2.matchedPairs, r2.leftUnmatched, r2.rightUnmatched⟩

/-- The matcher `matchBlocksBySimilarity` as in the source, with the source's
`calculateTextSimilarity`. -/
def matchBlocksBySimilarity (leftBlocks rightBlocks : List Block) :
    MatchResult :=
  matchBlocksBySimilarityWith calculateTextSimilarity leftBlocks rightBlocks

/-- Number of blocks with a given id in a working list. -/
def idCount (i : String) (l : List Block) : Nat :=
  l.countP (fun x => x.id == i)

lemma idCount_nil (i : String) : idCount i [] = 0 := rfl

lemma idCount_cons (i : String) (b : Block) (l : List Block) :
    idCount i (b :: l) = idCount i l + (if b.id == i then 1 else 0) := by
  simp [idCount, List.countP_cons]

lemma idCount_pos_of_mem {b : Block} {l : List Block} (h : b ∈ l) :
    0 < idCount b.id l := by
  induction l with
  | nil => cases h
  | cons x xs ih =>
    rcases List.mem_cons.mp h with h1 | h1
    · subst h1
      simp [idCount_cons]
    · have := ih h1
      rw [idCount_cons]
      omega

lemma length_eraseById {i : String} :
    ∀ {l : List Block}, 0 < idCount i l → (eraseById i l).length + 1 = l.length := by
  intro l
  induction l with
  | nil => intro h; simp [idCount_nil] at h
  | cons b rest ih =>
    intro h
    by_cases hb : b.id == i
    · simp [eraseById, hb]
    · rw [idCount_cons, if_neg hb] at h
      simp only [eraseById, if_neg hb, List.length_cons]
      have := ih (by omega)
      omega

lemma idCount_eraseById_self {i : String} :
    ∀ {l : List Block}, 0 < idCount i l →
      idCount i (eraseById i l) + 1 = idCount i l := by
  intro l
  induction l with
  | nil => intro h; simp [idCount_nil] at h
  | cons b rest ih =>
    intro h
    by_cases hb : b.id == i
    · simp [eraseById, hb, idCount_cons]
    · rw [idCount_cons, if_neg hb] at h ⊢
      simp only [eraseById, if_neg hb]
      rw [idCount_cons, if_neg hb]
      have := ih (by omega)
      omega

lemma idCount_eraseById_other {i s : String} (hne : s ≠ i) :
    ∀ l : List Block, idCount s (eraseById i l) = idCount s l := by
  intro l
  induction l with
  | nil => rfl
  | cons b rest ih =>
    by_cases hb : b.id == i
    · have hbi : b.id = i := by simpa using hb
      have hisns : ¬ i = s := mt Eq.symm hne
      have hbs : (b.id == s) = false := by simp [hbi, hisns]
      simp [eraseById, hb, idCount_cons, hbs]
    · simp only [eraseById, if_neg hb, idCount_cons, ih]

/-- The working-list invariant of both matching passes: every id occurs in
the not-yet-processed left blocks at most as often as in the current
`leftUnmatched` working list.  It guarantees the `findIndex` of the source
always finds a block to splice out. -/
def IdInv (todo workList : List Block) : Prop :=
  ∀ s : String, idCount s todo ≤ idCount s workList

lemma idInv_refl (l : List Block) : IdInv l l := fun _ => le_refl _

lemma idInv_tail {b : Block} {todo workList : List Block}
    (h : IdInv (b :: todo) workList) : IdInv todo workList := by
  intro s
  have := h s
  rw [idCount_cons] at this
  omega

lemma idInv_head_pos {b : Block} {todo workList : List Block}
    (h : IdInv (b :: todo) workList) : 0 < idCount b.id workList := by
  have h1 := h b.id
  rw [idCount_cons] at h1
  simp only [beq_self_eq_true, if_true] at h1
  omega

lemma idInv_tail_erase {b : Block} {todo workList : List Block}
    (h : IdInv (b :: todo) workList) :
    IdInv todo (eraseById b.id workList) := by
  intro s
  by_cases hs : s = b.id
  · subst hs
    have h1 := h b.id
    rw [idCount_cons] at h1
    simp only [beq_self_eq_true, if_true] at h1
    have h2 := idCount_eraseById_self (idInv_head_pos h)
    omega
  · rw [idCount_eraseById_other hs]
    have h1 := h s
    rw [idCount_cons] at h1
    omega

lemma phase1_left_length :
    ∀ (todo workList rightList : List Block), IdInv todo workList →
      (phase1 todo workList rightList).matchedPairs.length
        + (phase1 todo workList rightList).leftUnmatched.length
        = workList.length := by
  intro todo
  induction todo with
  | nil => intro workList rightList _; simp [phase1]
  | cons b rest ih =>
    intro workList rightList hinv
    cases hfind : rightList.find? (fun rb => exactMatchPred b rb) with
    | none =>
      simp only [phase1, hfind]
      exact ih workList rightList (idInv_tail hinv)
    | some m =>
      simp only [phase1, hfind, List.length_cons]
      have hrec := ih (eraseById b.id workList) (eraseById m.id rightList)
        (idInv_tail_erase hinv)
      have hlen := length_eraseById (idInv_head_pos hinv)
      omega

lemma phase1_right_length :
    ∀ (todo workList rightList : List Block),
      (phase1 todo workList rightList).matchedPairs.length
        + (phase1 todo workList rightList).rightUnmatched.length
        = rightList.length := by
  intro todo
  induction todo with
  | nil => intro workList rightList; simp [phase1]
  | cons b rest ih =>
    intro workList rightList
    cases hfind : rightList.find? (fun rb => exactMatchPred b rb) with
    | none =>
      simp only [phase1, hfind]
      exact ih workList rightList
    | some m =>
      simp only [phase1, hfind, List.length_cons]
      have hmem : m ∈ rightList := List.mem_of_find?_eq_some hfind
      have hrec := ih (eraseById b.id workList) (eraseById m.id rightList)
      have hlen := length_eraseById (idCount_pos_of_mem hmem)
      omega

lemma findBestMatchWith_some_mem_aux (sim : String → String → ℚ)
    (block : Block) :
    ∀ (candidates : List Block) (acc : Option Block × ℚ) (m : Block)
      (s : ℚ),
      candidates.foldl
        (fun best candidate =>
          if !(block.type == candidate.type) then best
          else
            let score := pairScoreWith sim block candidate
            if score > best.2 then (some candidate, score) else best)
        acc = (some m, s) →
      acc = (some m, s) ∨ m ∈ candidates := by
  intro candidates
  induction candidates with
  | nil =>
    intro acc m s h
    exact Or.inl h
  | cons c cs ih =>
    intro acc m s h
    rw [List.foldl_cons] at h
    rcases ih _ m s h with h1 | h1
    · by_cases ht : !(block.type == c.type)
      · rw [if_pos ht] at h1
        exact Or.inl h1
      · rw [if_neg ht] at h1
        by_cases hs : pairScoreWith sim block c > acc.2
        · simp only [if_pos hs] at h1
          have : c = m := by
            have := congrArg Prod.fst h1
            simpa using this
          exact Or.inr (by simp [this])
        · simp only [if_neg hs] at h1
          exact Or.inl h1
    · exact Or.inr (List.mem_cons_of_mem c h1)

lemma findBestMatchWith_some_mem {sim : String → String → ℚ} {block m : Block}
    {candidates : List Block} {s : ℚ}
    (h : findBestMatchWith sim block candidates = (some m, s)) :
    m ∈ candidates := by
  rcases findBestMatchWith_some_mem_aux sim block candidates (none, 0) m s h
    with h1 | h1
  · exact absurd (congrArg Prod.fst h1) (by simp)
  · exact h1

lemma phase2With_left_length (sim : String → String → ℚ) :
    ∀ (todo workList rightList : List Block), IdInv todo workList →
      (phase2With sim todo workList rightList).matchedPairs.length
        + (phase2With sim todo workList rightList).leftUnmatched.length
        = workList.length := by
  intro todo
  induction todo with
  | nil => intro workList rightList _; simp [phase2With]
  | cons b rest ih =>
    intro workList rightList hinv
    cases hfind : findBestMatchWith sim b rightList with
    | mk ob sc =>
      cases ob with
      | none =>
        simp only [phase2With, hfind]
        exact ih workList rightList (idInv_tail hinv)
      | some m =>
        by_cases hth : sc > 1/5
        · simp only [phase2With, hfind, if_pos hth, List.length_cons]
          have hrec := ih (eraseById b.id workList) (eraseById m.id rightList)
            (idInv_tail_erase hinv)
          have hlen := length_eraseById (idInv_head_pos hinv)
          omega
        · simp only [phase2With, hfind, if_neg hth]
          exact ih workList rightList (idInv_tail hinv)

lemma phase2With_right_length (sim : String → String → ℚ) :
    ∀ (todo workList rightList : List Block),
      (phase2With sim todo workList rightList).matchedPairs.length
        + (phase2With sim todo workList rightList).rightUnmatched.length
        = rightList.length := by
  intro todo
  induction todo with
  | nil => intro workList rightList; simp [phase2With]
  | cons b rest ih =>
    intro workList rightList
    cases hfind : findBestMatchWith sim b rightList with
    | mk ob sc =>
      cases ob with
      | none =>
        simp only [phase2With, hfind]
        exact ih workList rightList
      | some m =>
        by_cases hth : sc > 1/5
        · simp only [phase2With, hfind, if_pos hth, List.length_cons]
          have hmem : m ∈ rightList := findBestMatchWith_some_mem hfind
          have hrec := ih (eraseById b.id workList) (eraseById m.id rightList)
          have hlen := length_eraseById (idCount_pos_of_mem hmem)
          omega
        · simp only [phase2With, hfind, if_neg hth]
          exact ih workList rightList

/-- One character of text-node serialization (`div.textContent = text;
div.innerHTML`): the HTML serializer escapes ampersand, the angle brackets
and the no-break space, and emits every other character verbatim. -/
def escapeChar (c : Char) : List Char :=
  if c = '&' then "&amp;".data
  else if c = '<' then "&lt;".data
  else if c = '>' then "&gt;".data
  else if c = '\u00A0' then "&nbsp;".data
  else [c]

/-- Embedding of `escapeHtml`: serialize a string as HTML text (the source assigns it to
`textContent` of a fresh element and reads back `innerHTML`). -/
def escapeHtml (text : String) : String :=
  ⟨text.data.flatMap escapeChar⟩

/-- The markup emitted for an inserted span on the right side. -/
def spanAdded (t : String) : String :=
  "<span class=\"word-added\">" ++ escapeHtml t ++ "</span>"

/-- The markup emitted for a deleted span on the left side. -/
def spanDeleted (t : String) : String :=
  "<span class=\"word-deleted\">" ++ escapeHtml t ++ "</span>"

/-- The state built by the diff loop of `compareAndHighlightParagraphs`:
the two accumulated innerHTML strings and the `hasChanges` flag. -/
structure ParaDiffResult where
  leftHtml : String
  rightHtml : String
  hasChanges : Bool
deriving DecidableEq, Repr

/-- The diff-rendering loop of `compareAndHighlightParagraphs`: additions
append an annotated span to the right markup, deletions to the left markup
(both setting `hasChanges`), equal spans append escaped text to both. -/
def renderOps (ds : List DiffEntry) : ParaDiffResult :=
  ds.foldl
    (fun st e =>
      match e.tag with
      | .insert => ⟨st.leftHtml, st.rightHtml ++ spanAdded e.text, true⟩
      | .delete => ⟨st.leftHtml ++ spanDeleted e.text, st.rightHtml, true⟩
      | .equal =>
          ⟨st.leftHtml ++ escapeHtml e.text, st.rightHtml ++ escapeHtml e.text,
            st.hasChanges⟩)
    ⟨"", "", false⟩

/-- The diff sequence `compareAndHighlightParagraphs` computes for a
paragraph pair: the external primitive applied to the trimmed contents. -/
def diffsOf (leftBlock rightBlock : Block) : List DiffEntry :=
  diffMain leftBlock.content.trim rightBlock.content.trim

/-- Embedding of `compareAndHighlightParagraphs`: word-diff the trimmed contents and
render both sides (the cloned elements and their style assignments are
presentational and not modelled). -/
def compareAndHighlightParagraphs (leftBlock rightBlock : Block) :
    ParaDiffResult :=
  renderOps (diffsOf leftBlock rightBlock)

/-- One rendered output node appended to a result container by
`performBlockComparison`.  Each constructor records the source block it was
built from; the concrete markup of the deleted/added/modified wrappers and
placeholders is presentational and not modelled. -/
inductive OutNode where
  | paraDiff : Block → String → Bool → OutNode
  | unchanged : Block → OutNode
  | modifiedBlock : Block → OutNode
  | deleted : Block → OutNode
  | added : Block → OutNode
  | placeholder : Block → String → OutNode
deriving DecidableEq, Repr

/-- The summary object `{ additions, deletions, changes }`. -/
structure Summary where
  additions : Nat
  deletions : Nat
  changes : Nat
deriving DecidableEq, Repr

/-- The state of `performBlockComparison`: the two output containers (as
ordered lists of nodes) and the running summary. -/
structure CompResult where
  leftResult : List OutNode
  rightResult : List OutNode
  summary : Summary
deriving DecidableEq, Repr

/-- The per-pair step of `performBlockComparison`'s `matches` loop: for a
paragraph pair, word-diff and count a change when the diff has a non-equal
span; otherwise compare `src` (images) or text content (tables) and either
mark both sides modified (counting a change) or pass both through
unchanged.  Returns the left node, the right node and the change count. -/
def classifyMatch (m : MatchPair) : OutNode × OutNode × Nat :=
  if m.left.type == "p" && m.right.type == "p" then
    let pr := compareAndHighlightParagraphs m.left m.right
    (.paraDiff m.left pr.leftHtml pr.hasChanges,
     .paraDiff m.right pr.rightHtml pr.hasChanges,
     if pr.hasChanges then 1 else 0)
  else
    let leftContent := if m.left.type == "img" then m.left.src
      else m.left.content
    let rightContent := if m.right.type == "img" then m.right.src
      else m.right.content
    if leftContent != rightContent then
      (.modifiedBlock m.left, .modifiedBlock m.right, 1)
    else
      (.unchanged m.left, .unchanged m.right, 0)

/-- The `matches.forEach` body: append the classified pair to both containers
and add its change count. -/
def appendMatch (st : CompResult) (m : MatchPair) : CompResult :=
  let c := classifyMatch m
  ⟨st.leftResult ++ [c.1], st.rightResult ++ [c.2.1],
   ⟨st.summary.additions, st.summary.deletions, st.summary.changes + c.2.2⟩⟩

/-- The `leftUnmatched.forEach` body: deleted block on the left, placeholder on
the right, `summary.deletions++`. -/
def appendDeleted (st : CompResult) (b : Block) : CompResult :=
  ⟨st.leftResult ++ [.deleted b], st.rightResult ++ [.placeholder b "deleted"],
   ⟨st.summary.additions, st.summary.deletions + 1, st.summary.changes⟩⟩

/-- The `rightUnmatched.forEach` body: placeholder on the left, added block on
the right, `summary.additions++`. -/
def appendAdded (st : CompResult) (b : Block) : CompResult :=
  ⟨st.leftResult ++ [.placeholder b "added"], st.rightResult ++ [.added b],
   ⟨st.summary.additions + 1, st.summary.deletions, st.summary.changes⟩⟩

/-- Embedding of `performBlockComparison`, parameterized by the similarity function used
by the matcher: match, then append all matched pairs, then all left-side
deletions, then all right-side additions, accumulating the summary. -/
def performBlockComparisonWith (sim : String → String → ℚ)
    (leftBlocks rightBlocks : List Block) : CompResult :=
  let r := matchBlocksBySimilarityWith sim leftBlocks rightBlocks
  (r.rightUnmatched.foldl appendAdded
    (r.leftUnmatched.foldl appendDeleted
      (r.matchedPairs.foldl appendMatch ⟨[], [], ⟨0, 0, 0⟩⟩)))

/-- The classifier and assembler `performBlockComparison` as in the source. -/
def performBlockComparison (leftBlocks rightBlocks : List Block) :
    CompResult :=
  performBlockComparisonWith calculateTextSimilarity leftBlocks rightBlocks

/-- 32-bit signed wrap-around, as JS bitwise operators apply it. -/
def toInt32 (n : ℤ) : ℤ := (n + 2 ^ 31) % 2 ^ 32 - 2 ^ 31

/-- One step of the hash loop in `generateBlockId`:
`a = ((a << 5) - a) + ch; a = a & a;` — the shift wraps to 32 bits, the
subtraction and addition are exact, and the final bitwise and wraps again. -/
def jsHashStep (a : ℤ) (c : Char) : ℤ :=
  toInt32 (toInt32 (a * 32) - a + (c.toNat : ℤ))

/-- The string hash reduce of `generateBlockId` (initial accumulator 0). -/
def jsHash (s : String) : ℤ :=
  s.data.foldl jsHashStep 0

/-- Model of `content.replace(/\s+/g, '-')`: collapse every whitespace run to a
single dash. -/
def collapseWsDash (s : String) : String :=
  ⟨go false s.data⟩
where
  go : Bool → List Char → List Char
    | _, [] => []
    | prevWs, c :: cs =>
      if c.isWhitespace then
        (if prevWs then go true cs else '-' :: go true cs)
      else c :: go false cs

/-- Embedding of `generateBlockId` for a paragraph: hash of the first 30 characters of
the trimmed text content, then a dash, then the first 15 characters of the
lower-cased dash-collapsed form of those characters. -/
def generateBlockIdP (textContent : String) : String :=
  let content := textContent.trim.take 30
  "p-" ++ toString (jsHash content).natAbs ++ "-"
    ++ ((collapseWsDash content).toLower.take 15)

/-- An extracted paragraph block with the id `generateBlockId` computes for
it (paragraphs have no `src` attribute). -/
def mkP (content : String) (index : Nat) : Block :=
  ⟨"p", content, "", generateBlockIdP content, index⟩

/-- An extracted image block: its text content is empty (`img` elements
have no text), its id is the one `generateBlockId` derives from the `src`
file name. -/
def mkImg (src id : String) (index : Nat) : Block :=
  ⟨"img", "", src, id, index⟩

lemma string_append_empty (s : String) : s ++ "" = s := by
  apply string_eq_of_data
  simp [string_data_append]

lemma string_empty_append (s : String) : "" ++ s = s := by
  apply string_eq_of_data
  simp [string_data_append]

lemma phase1_diag :
    ∀ blocks : List Block,
      phase1 blocks blocks blocks
        = ⟨blocks.map (fun b => ⟨b, b, 1⟩), [], []⟩ := by
  intro blocks
  induction blocks with
  | nil => rfl
  | cons b rest ih =>
    have hpred : exactMatchPred b b = true := by
      simp [exactMatchPred]
    have hfind : (b :: rest).find? (fun rb => exactMatchPred b rb) = some b :=
      List.find?_cons_of_pos rest hpred
    have herase : eraseById b.id (b :: rest) = rest := by
      simp [eraseById]
    simp [phase1, hfind, herase, ih]

lemma phase2With_nil (sim : String → String → ℚ) :
    phase2With sim [] [] [] = ⟨[], [], []⟩ := rfl

lemma matchBlocksBySimilarityWith_self (sim : String → String → ℚ)
    (blocks : List Block) :
    matchBlocksBySimilarityWith sim blocks blocks
      = ⟨blocks.map (fun b => ⟨b, b, 1⟩), [], []⟩ := by
  unfold matchBlocksBySimilarityWith
  rw [phase1_diag]
  simp [phase2With]

lemma renderOps_diffMain_self (a : String) :
    (renderOps (diffMain a a)).hasChanges = false := by
  unfold diffMain
  rw [if_pos rfl]
  by_cases ha : a = ""
  · rw [if_pos ha]; rfl
  · rw [if_neg ha]; rfl

lemma classifyMatch_self_changes (b : Block) :
    (classifyMatch ⟨b, b, 1⟩).2.2 = 0 := by
  unfold classifyMatch
  by_cases hp : (b.type == "p" && b.type == "p") = true
  · simp only [hp, if_true, compareAndHighlightParagraphs, diffsOf,
      renderOps_diffMain_self]
    rfl
  · simp only [hp, if_false, Bool.not_eq_true]
    have : ((if b.type == "img" then b.src else b.content)
        != (if b.type == "img" then b.src else b.content)) = false := by
      simp
    rw [if_neg (by simp [hp]), this]
    simp

lemma foldl_appendMatch :
    ∀ (pairs : List MatchPair) (st : CompResult),
      pairs.foldl appendMatch st
        = ⟨st.leftResult ++ pairs.map (fun m => (classifyMatch m).1),
           st.rightResult ++ pairs.map (fun m => (classifyMatch m).2.1),
           ⟨st.summary.additions, st.summary.deletions,
            st.summary.changes
              + (pairs.map (fun m => (classifyMatch m).2.2)).sum⟩⟩ := by
  intro pairs
  induction pairs with
  | nil => intro st; simp
  | cons m rest ih =>
    intro st
    rw [List.foldl_cons, ih]
    simp [appendMatch, Nat.add_assoc]

lemma foldl_appendDeleted :
    ∀ (blocks : List Block) (st : CompResult),
      blocks.foldl appendDeleted st
        = ⟨st.leftResult ++ blocks.map OutNode.deleted,
           st.rightResult ++ blocks.map (fun b => OutNode.placeholder b "deleted"),
           ⟨st.summary.additions, st.summary.deletions + blocks.length,
            st.summary.changes⟩⟩ := by
  intro blocks
  induction blocks with
  | nil => intro st; simp
  | cons b rest ih =>
    intro st
    rw [List.foldl_cons, ih]
    simp [appendDeleted]
    omega

lemma foldl_appendAdded :
    ∀ (blocks : List Block) (st : CompResult),
      blocks.foldl appendAdded st
        = ⟨st.leftResult ++ blocks.map (fun b => OutNode.placeholder b "added"),
           st.rightResult ++ blocks.map OutNode.added,
           ⟨st.summary.additions + blocks.length, st.summary.deletions,
            st.summary.changes⟩⟩ := by
  intro blocks
  induction blocks with
  | nil => intro st; simp
  | cons b rest ih =>
    intro st
    rw [List.foldl_cons, ih]
    simp [appendAdded]
    omega

/-- Structure of `performBlockComparison`'s output: the classified matched
pairs in match order, then the deletions, then the additions; the summary
counts the unmatched lists and sums the per-pair change contributions. -/
lemma performBlockComparisonWith_eq (sim : String → String → ℚ)
    (leftBlocks rightBlocks : List Block) :
    performBlockComparisonWith sim leftBlocks rightBlocks
      = ⟨(matchBlocksBySimilarityWith sim leftBlocks rightBlocks).matchedPairs.map
            (fun m => (classifyMatch m).1)
          ++ (matchBlocksBySimilarityWith sim leftBlocks rightBlocks).leftUnmatched.map
            OutNode.deleted
          ++ (matchBlocksBySimilarityWith sim leftBlocks rightBlocks).rightUnmatched.map
            (fun b => OutNode.placeholder b "added"),
         (matchBlocksBySimilarityWith sim leftBlocks rightBlocks).matchedPairs.map
            (fun m => (classifyMatch m).2.1)
          ++ (matchBlocksBySimilarityWith sim leftBlocks rightBlocks).leftUnmatched.map
            (fun b => OutNode.placeholder b "deleted")
          ++ (matchBlocksBySimilarityWith sim leftBlocks rightBlocks).rightUnmatched.map
            OutNode.added,
         ⟨(matchBlocksBySimilarityWith sim leftBlocks rightBlocks).rightUnmatched.length,
          (matchBlocksBySimilarityWith sim leftBlocks rightBlocks).leftUnmatched.length,
          ((matchBlocksBySimilarityWith sim leftBlocks rightBlocks).matchedPairs.map
            (fun m => (classifyMatch m).2.2)).sum⟩⟩ := by
  unfold performBlockComparisonWith
  dsimp only
  rw [foldl_appendMatch, foldl_appendDeleted, foldl_appendAdded]
  simp [List.append_assoc]

lemma phase1_matched_sublist :
    ∀ (todo workList rightList : List Block),
      List.Sublist
        ((phase1 todo workList rightList).matchedPairs.map (fun m => m.left))
        todo := by
  intro todo
  induction todo with
  | nil => intro workList rightList; simp [phase1]
  | cons b rest ih =>
    intro workList rightList
    cases hfind : rightList.find? (fun rb => exactMatchPred b rb) with
    | none =>
      simp only [phase1, hfind]
      exact (ih workList rightList).trans (List.sublist_cons_self b rest)
    | some m =>
      simp only [phase1, hfind, List.map_cons]
      exact List.Sublist.cons₂ b
        (ih (eraseById b.id workList) (eraseById m.id rightList))

lemma phase2With_matched_sublist (sim : String → String → ℚ) :
    ∀ (todo workList rightList : List Block),
      List.Sublist
        ((phase2With sim todo workList rightList).matchedPairs.map
          (fun m => m.left))
        todo := by
  intro todo
  induction todo with
  | nil => intro workList rightList; simp [phase2With]
  | cons b rest ih =>
    intro workList rightList
    cases hfind : findBestMatchWith sim b rightList with
    | mk ob sc =>
      cases ob with
      | none =>
        simp only [phase2With, hfind]
        exact (ih workList rightList).trans (List.sublist_cons_self b rest)
      | some m =>
        by_cases hth : sc > 1/5
        · simp only [phase2With, hfind, if_pos hth, List.map_cons]
          exact List.Sublist.cons₂ b
            (ih (eraseById b.id workList) (eraseById m.id rightList))
        · simp only [phase2With, hfind, if_neg hth]
          exact (ih workList rightList).trans (List.sublist_cons_self b rest)

lemma findBestMatchWith_acc_le_aux (sim : String → String → ℚ)
    (block : Block) :
    ∀ (candidates : List Block) (acc : Option Block × ℚ),
      acc.2 ≤ (candidates.foldl
        (fun best candidate =>
          if !(block.type == candidate.type) then best
          else
            let score := pairScoreWith sim block candidate
            if score > best.2 then (some candidate, score) else best)
        acc).2 := by
  intro candidates
  induction candidates with
  | nil => intro acc; exact le_refl _
  | cons c cs ih =>
    intro acc
    rw [List.foldl_cons]
    by_cases ht : !(block.type == c.type)
    · rw [if_pos ht]
      exact ih acc
    · rw [if_neg ht]
      by_cases hs : pairScoreWith sim block c > acc.2
      · simp only [if_pos hs]
        exact le_of_lt (lt_of_lt_of_le hs (ih (some c, pairScoreWith sim block c)))
      · simp only [if_neg hs]
        exact ih acc

lemma findBestMatchWith_max_aux (sim : String → String → ℚ) (block : Block) :
    ∀ (candidates : List Block) (acc : Option Block × ℚ) (c : Block),
      c ∈ candidates → (block.type == c.type) = true →
      pairScoreWith sim block c ≤ (candidates.foldl
        (fun best candidate =>
          if !(block.type == candidate.type) then best
          else
            let score := pairScoreWith sim block candidate
            if score > best.2 then (some candidate, score) else best)
        acc).2 := by
  intro candidates
  induction candidates with
  | nil => intro acc c hc; cases hc
  | cons x xs ih =>
    intro acc c hc htype
    rw [List.foldl_cons]
    rcases List.mem_cons.mp hc with h1 | h1
    · subst h1
      rw [if_neg (by simp [htype])]
      by_cases hs : pairScoreWith sim block c > acc.2
      · simp only [if_pos hs]
        exact findBestMatchWith_acc_le_aux sim block xs _
      · simp only [if_neg hs]
        exact le_trans (not_lt.mp hs) (findBestMatchWith_acc_le_aux sim block xs acc)
    · exact ih _ c h1 htype

/-- Maximality of `findBestMatch`: the returned score is at least the score
of every same-type candidate (so the pass keeps a best-of-all-candidates
score, not a first-above-threshold one). -/
lemma findBestMatchWith_max {sim : String → String → ℚ} {block c : Block}
    {candidates : List Block} (hc : c ∈ candidates)
    (htype : (block.type == c.type) = true) :
    pairScoreWith sim block c ≤ (findBestMatchWith sim block candidates).2 :=
  findBestMatchWith_max_aux sim block candidates (none, 0) c hc htype

lemma findBestMatchWith_some_spec_aux (sim : String → String → ℚ)
    (block : Block) :
    ∀ (candidates : List Block) (acc : Option Block × ℚ) (m : Block) (s : ℚ),
      candidates.foldl
        (fun best candidate =>
          if !(block.type == candidate.type) then best
          else
            let score := pairScoreWith sim block candidate
            if score > best.2 then (some candidate, score) else best)
        acc = (some m, s) →
      acc = (some m, s)
        ∨ (m ∈ candidates ∧ (block.type == m.type) = true
            ∧ pairScoreWith sim block m = s) := by
  intro candidates
  induction candidates with
  | nil => intro acc m s h; exact Or.inl h
  | cons c cs ih =>
    intro acc m s h
    rw [List.foldl_cons] at h
    by_cases ht : !(block.type == c.type)
    · rw [if_pos ht] at h
      rcases ih acc m s h with h1 | h1
      · exact Or.inl h1
      · exact Or.inr ⟨List.mem_cons_of_mem c h1.1, h1.2⟩
    · rw [if_neg ht] at h
      by_cases hs : pairScoreWith sim block c > acc.2
      · simp only [if_pos hs] at h
        rcases ih _ m s h with h1 | h1
        · have hcm : c = m := by
            have := congrArg Prod.fst h1
            simpa using this
          have hsc : pairScoreWith sim block c = s := by
            have := congrArg Prod.snd h1
            simpa using this
          subst hcm
          refine Or.inr ⟨List.mem_cons_self c cs, ?_, hsc⟩
          simpa using ht
        · exact Or.inr ⟨List.mem_cons_of_mem c h1.1, h1.2⟩
      · simp only [if_neg hs] at h
        rcases ih acc m s h with h1 | h1
        · exact Or.inl h1
        · exact Or.inr ⟨List.mem_cons_of_mem c h1.1, h1.2⟩

/-- When `findBestMatch` selects a candidate, that candidate is one of the
given blocks, has the probe's type, and realizes the returned score. -/
lemma findBestMatchWith_some_spec {sim : String → String → ℚ}
    {block m : Block} {candidates : List Block} {s : ℚ}
    (h : findBestMatchWith sim block candidates = (some m, s)) :
    m ∈ candidates ∧ (block.type == m.type) = true
      ∧ pairScoreWith sim block m = s := by
  rcases findBestMatchWith_some_spec_aux sim block candidates (none, 0) m s h
    with h1 | h1
  · exact absurd (congrArg Prod.fst h1) (by simp)
  · exact h1

/-- The piece an op contributes to the left innerHTML string. -/
def leftPiece (e : DiffEntry) : String :=
  match e.tag with
  | .insert => ""
  | .delete => spanDeleted e.text
  | .equal => escapeHtml e.text

/-- The piece an op contributes to the right innerHTML string. -/
def rightPiece (e : DiffEntry) : String :=
  match e.tag with
  | .insert => spanAdded e.text
  | .delete => ""
  | .equal => escapeHtml e.text

lemma renderOps_fold_aux :
    ∀ (ds : List DiffEntry) (st : ParaDiffResult),
      (ds.foldl
        (fun st e =>
          match e.tag with
          | .insert => ⟨st.leftHtml, st.rightHtml ++ spanAdded e.text, true⟩
          | .delete => ⟨st.leftHtml ++ spanDeleted e.text, st.rightHtml, true⟩
          | .equal =>
              ⟨st.leftHtml ++ escapeHtml e.text,
                st.rightHtml ++ escapeHtml e.text, st.hasChanges⟩)
        st).leftHtml = st.leftHtml ++ String.join (ds.map leftPiece)
      ∧ (ds.foldl
        (fun st e =>
          match e.tag with
          | .insert => ⟨st.leftHtml, st.rightHtml ++ spanAdded e.text, true⟩
          | .delete => ⟨st.leftHtml ++ spanDeleted e.text, st.rightHtml, true⟩
          | .equal =>
              ⟨st.leftHtml ++ escapeHtml e.text,
                st.rightHtml ++ escapeHtml e.text, st.hasChanges⟩)
        st).rightHtml = st.rightHtml ++ String.join (ds.map rightPiece) := by
  intro ds
  induction ds with
  | nil =>
    intro st
    constructor <;>
      · rw [List.foldl_nil, List.map_nil, string_join_nil, string_append_empty]
  | cons e rest ih =>
    intro st
    obtain ⟨tag, text⟩ := e
    rw [List.foldl_cons, List.map_cons, string_join_cons]
    cases tag <;> constructor
    all_goals
      first
      | (rw [(ih _).1]
         apply string_eq_of_data
         simp [string_data_append, leftPiece])
      | (rw [(ih _).2]
         apply string_eq_of_data
         simp [string_data_append, rightPiece])

lemma renderOps_join (ds : List DiffEntry) :
    (renderOps ds).leftHtml = String.join (ds.map leftPiece)
      ∧ (renderOps ds).rightHtml = String.join (ds.map rightPiece) := by
  have h := renderOps_fold_aux ds ⟨"", "", false⟩
  unfold renderOps
  exact ⟨h.1.trans (string_empty_append _), h.2.trans (string_empty_append _)⟩

lemma escapeChar_no_angle (c : Char) :
    (escapeChar c).all (fun ch => !(ch == '<') && !(ch == '>')) = true := by
  unfold escapeChar
  by_cases h1 : c = '&'
  · rw [if_pos h1]; rfl
  · rw [if_neg h1]
    by_cases h2 : c = '<'
    · rw [if_pos h2]; rfl
    · rw [if_neg h2]
      by_cases h3 : c = '>'
      · rw [if_pos h3]; rfl
      · rw [if_neg h3]
        by_cases h4 : c = ' '
        · rw [if_pos h4]; rfl
        · rw [if_neg h4]
          simp [h2, h3]

/-- The HTML escaping function never emits an angle bracket: markup from a
paragraph's source text cannot open or close a tag in the output. -/
lemma escapeHtml_no_angle (s : String) :
    ((escapeHtml s).data.all (fun c => !(c == '<') && !(c == '>'))) = true := by
  show (s.data.flatMap escapeChar).all _ = true
  induction s.data with
  | nil => rfl
  | cons c cs ih =>
    rw [List.flatMap_cons, List.all_append, escapeChar_no_angle, ih]
    rfl

/-!
Exception-aware model of the same pipeline.  In the source the diff
primitive (`dmp.diff_main`) can throw on pathological inputs; JavaScript
propagates such an exception through `calculateTextSimilarity`,
`findBestMatch`, `matchBlocksBySimilarity` and `performBlockComparison` —
none of which contain a `try`/`catch` — up to the single `try`/`catch` in
`compareDocumentBlocks`.  Propagation is modelled by threading `Except`
through the same definitions; with a never-failing primitive these agree
with the pure definitions above.
-/

/-- A possibly-failing external diff primitive. -/
def DiffPrim : Type := String → String → Except String (List DiffEntry)

/-- The never-failing primitive: the modelled `diff_main` itself. -/
def dmOk : DiffPrim := fun a b => .ok (diffMain a b)

/-- Variant of `calculateTextSimilarity` with a possibly-failing primitive; note there
is no handler here — a primitive failure propagates to the caller. -/
def calculateTextSimilarityE (dm : DiffPrim) (text1 text2 : String) :
    Except String ℚ :=
  if text1 == "" && text2 == "" then .ok 1
  else if text1 == "" || text2 == "" then .ok 0
  else do
    let ds ← dm text1.trim text2.trim
    let lev := diffLevenshtein ds
    let maxLength := max text1.length text2.length
    pure (if maxLength > 0 then max 0 (1 - (lev : ℚ) / (maxLength : ℚ)) else 0)

/-- The per-candidate score with a possibly-failing primitive. -/
def pairScoreE (dm : DiffPrim) (block candidate : Block) : Except String ℚ :=
  if block.type == "img" then
    .ok (if block.src == candidate.src then 1 else 0)
  else calculateTextSimilarityE dm block.content candidate.content

/-- Variant of `findBestMatch` with a possibly-failing primitive. -/
def findBestMatchE (dm : DiffPrim) (block : Block)
    (candidates : List Block) : Except String (Option Block × ℚ) :=
  candidates.foldlM
    (fun best candidate =>
      if !(block.type == candidate.type) then pure best
      else do
        let score ← pairScoreE dm block candidate
        pure (if score > best.2 then (some candidate, score) else best))
    (none, (0 : ℚ))

/-- The fuzzy pass with a possibly-failing primitive. -/
def phase2E (dm : DiffPrim) :
    List Block → List Block → List Block → Except String MatchResult
  | [], leftUnmatched, rightUnmatched => .ok ⟨[], leftUnmatched, rightUnmatched⟩
  | b :: rest, leftUnmatched, rightUnmatched => do
    let bm ← findBestMatchE dm b rightUnmatched
    match bm with
    | (some m, score) =>
      if score > 1/5 then do
        let res ← phase2E dm rest (eraseById b.id leftUnmatched)
          (eraseById m.id rightUnmatched)
        pure ⟨⟨b, m, score⟩ :: res.matchedPairs, res.leftUnmatched,
          res.rightUnmatched⟩
      else phase2E dm rest leftUnmatched rightUnmatched
    | (none, _) => phase2E dm rest leftUnmatched rightUnmatched

/-- Variant of `matchBlocksBySimilarity` with a possibly-failing primitive (the exact
pass calls no primitive and cannot fail). -/
def matchBlocksBySimilarityE (dm : DiffPrim)
    (leftBlocks rightBlocks : List Block) : Except String MatchResult := do
  let r1 := phase1 leftBlocks leftBlocks rightBlocks
  let r2 ← phase2E dm r1.leftUnmatched r1.leftUnmatched r1.rightUnmatched
  pure ⟨r1.matchedPairs ++ r2.matchedPairs, r2.leftUnmatched,
    r2.rightUnmatched⟩

/-- The per-pair classification step with a possibly-failing primitive (the
paragraph branch calls the primitive on the trimmed contents). -/
def classifyMatchE (dm : DiffPrim) (m : MatchPair) :
    Except String (OutNode × OutNode × Nat) :=
  if m.left.type == "p" && m.right.type == "p" then do
    let ds ← dm m.left.content.trim m.right.content.trim
    let pr := renderOps ds
    pure (.paraDiff m.left pr.leftHtml pr.hasChanges,
      .paraDiff m.right pr.rightHtml pr.hasChanges,
      if pr.hasChanges then 1 else 0)
  else pure (classifyMatch m)

/-- Variant of `performBlockComparison` with a possibly-failing primitive. -/
def performBlockComparisonE (dm : DiffPrim)
    (leftBlocks rightBlocks : List Block) : Except String CompResult := do
  let r ← matchBlocksBySimilarityE dm leftBlocks rightBlocks
  let st ← r.matchedPairs.foldlM
    (fun st m => do
      let c ← classifyMatchE dm m
      pure (⟨st.leftResult ++ [c.1], st.rightResult ++ [c.2.1],
        ⟨st.summary.additions, st.summary.deletions,
          st.summary.changes + c.2.2⟩⟩ : CompResult))
    (⟨[], [], ⟨0, 0, 0⟩⟩ : CompResult)
  pure (r.rightUnmatched.foldl appendAdded
    (r.leftUnmatched.foldl appendDeleted st))

/-- One of the two documents of the final result: either the rendered
comparison output or, after an internal failure, the caller's input markup
echoed back verbatim.  (Serializing rendered nodes to an HTML string is
presentational and left abstract.) -/
inductive DocView where
  | rendered : List OutNode → DocView
  | echoed : String → DocView
deriving DecidableEq, Repr

/-- The value `compareDocumentBlocks` returns to its caller. -/
structure CompareOutput where
  leftHtml : DocView
  rightHtml : DocView
  summary : Summary
deriving DecidableEq, Repr

/-- Embedding of `compareDocumentBlocks`: the whole pipeline runs inside one
`try`/`catch`; on success the rendered containers and computed summary are
returned, and on any internal failure the two input HTML strings are
returned unmodified together with a zero summary. -/
def compareDocumentBlocksE (dm : DiffPrim) (leftHtml rightHtml : String)
    (leftBlocks rightBlocks : List Block) : CompareOutput :=
  match performBlockComparisonE dm leftBlocks rightBlocks with
  | .ok r => ⟨.rendered r.leftResult, .rendered r.rightResult, r.summary⟩
  | .error _ => ⟨.echoed leftHtml, .echoed rightHtml, ⟨0, 0, 0⟩⟩

/-- Modelled from the spec: the per-pair containment policy the spec claims
for similarity failures — "caught per-pair, treated as similarity 0" (spec
§7(c)).  The source has no such handler; this definition exists to compare
the claimed behavior with the code's actual behavior. -/
def calculateTextSimilarityContained (dm : DiffPrim)
    (text1 text2 : String) : ℚ :=
  match calculateTextSimilarityE dm text1 text2 with
  | .ok s => s
  | .error _ => 0

deriving instance DecidableEq for Except

/-- The always-failing primitive, standing for `diff_main` throwing on any
input. -/
def dmFail : DiffPrim := fun _ _ => .error "diff primitive failure"

/-- A primitive that fails exactly when its left input is the given
pathological string and behaves like the modelled `diff_main` otherwise. -/
def dmFailOn (bad : String) : DiffPrim :=
  fun a b => if a = bad then .error "pathological input" else .ok (diffMain a b)

/-- An image block `<img src="a.png">` as extracted (empty text content;
id as `generateBlockId` derives it from the file name). -/
def imgLeft : Block := mkImg "a.png" "img-a" 0

/-- An image block `<img src="b.png">` as extracted. -/
def imgRight : Block := mkImg "b.png" "img-b" 0

/-- A paragraph whose first 30 characters coincide with `cxP2`'s, so both
receive the same generated id although their contents differ. -/
def cxP1 : Block := mkP "aaaaaaaaaaaaaaaaaaaaaaaaaaaaaa b" 0

/-- A paragraph sharing its first 30 characters with `cxP1`. -/
def cxP2 : Block := mkP "aaaaaaaaaaaaaaaaaaaaaaaaaaaaaa c" 1

/-- The right-hand twin of `cxP2` (equal trimmed content). -/
def cxQ : Block := mkP "aaaaaaaaaaaaaaaaaaaaaaaaaaaaaa c" 0

/-- Left paragraph 0 of the ordering example. -/
def ordA : Block := mkP "aaaa" 0

/-- Left paragraph 1 of the ordering example. -/
def ordB : Block := mkP "b" 1

/-- Right paragraph 0 of the ordering example (exact twin of `ordB`). -/
def ordC : Block := mkP "b" 0

/-- Right paragraph 1 of the ordering example (fuzzy partner of `ordA`). -/
def ordD : Block := mkP "aaab" 1

/-- A paragraph with leading and trailing whitespace in its content. -/
def padLeft : Block := mkP " Hello world " 0

/-- The modified partner of `padLeft`. -/
def padRight : Block := mkP "Hello there world" 0

/-- The paragraph whose content the failing primitive `dmFailOn` rejects. -/
def pathPara : Block := mkP "alpha alpha alpha" 0

/-- A second left paragraph, not involved in the failing pair. -/
def zzPara : Block := mkP "zz" 1

/-- The sole right paragraph of the failure-containment example. -/
def otherPara : Block := mkP "totally different" 0

/-- The source-block index carried by a node of the left result sequence
(`added` nodes occur only in the right sequence; placeholders stand for a
missing left block and carry none). -/
def leftSeqIndex : OutNode → Option Nat
  | .paraDiff b _ _ => some b.index
  | .unchanged b => some b.index
  | .modifiedBlock b => some b.index
  | .deleted b => some b.index
  | .added _ => none
  | .placeholder _ _ => none

lemma performBlockComparisonE_error {dm : DiffPrim}
    {leftBlocks rightBlocks : List Block} {e : String}
    (h : matchBlocksBySimilarityE dm leftBlocks rightBlocks = .error e) :
    performBlockComparisonE dm leftBlocks rightBlocks = .error e := by
  unfold performBlockComparisonE
  rw [h]
  rfl

/-- C1 (amended part): the cardinality equations of the matcher hold for
every pair of block lists — the combined `matches` list plus the final
`leftUnmatched` account for every left block, and symmetrically for the
right side. -/
theorem c1_matcher_counts (leftBlocks rightBlocks : List Block) :
    (matchBlocksBySimilarity leftBlocks rightBlocks).matchedPairs.length
        + (matchBlocksBySimilarity leftBlocks rightBlocks).leftUnmatched.length
        = leftBlocks.length
    ∧ (matchBlocksBySimilarity leftBlocks rightBlocks).matchedPairs.length
        + (matchBlocksBySimilarity leftBlocks rightBlocks).rightUnmatched.length
        = rightBlocks.length := by
  unfold matchBlocksBySimilarity matchBlocksBySimilarityWith
  dsimp only
  have h1l := phase1_left_length leftBlocks leftBlocks rightBlocks
    (idInv_refl leftBlocks)
  have h1r := phase1_right_length leftBlocks leftBlocks rightBlocks
  have h2l := phase2With_left_length calculateTextSimilarity
    (phase1 leftBlocks leftBlocks rightBlocks).leftUnmatched
    (phase1 leftBlocks leftBlocks rightBlocks).leftUnmatched
    (phase1 leftBlocks leftBlocks rightBlocks).rightUnmatched
    (idInv_refl _)
  have h2r := phase2With_right_length calculateTextSimilarity
    (phase1 leftBlocks leftBlocks rightBlocks).leftUnmatched
    (phase1 leftBlocks leftBlocks rightBlocks).leftUnmatched
    (phase1 leftBlocks leftBlocks rightBlocks).rightUnmatched
  simp only [List.length_append]
  omega

/-- C1 counterexample: two left paragraphs that differ beyond their first
30 characters share a generated id.  When the second exact-matches the sole
right block, the splice-by-id removes the FIRST id-twin instead, so the
matched block `cxP2` remains in `leftUnmatched` (it is referenced by a match
entry AND by the unmatched list) while `cxP1` appears in no entry at all —
the claimed exactly-one-entry partition fails. -/
theorem c1_counterexample :
    cxP1.id = cxP2.id ∧ cxP1 ≠ cxP2
    ∧ matchBlocksBySimilarity [cxP1, cxP2] [cxQ]
        = ⟨[⟨cxP2, cxQ, 1⟩], [cxP2], []⟩ := by
  with_unfolding_all decide

/-- C2 (amended part): `summary.additions` and `summary.deletions` count
the unmatched lists exactly as claimed, but `summary.changes` sums the
per-pair change contributions over ALL matched pairs — a pair from the
exact pass can contribute when its compared content (the `src` attribute
for images) differs. -/
theorem c2_summary_structure (leftBlocks rightBlocks : List Block) :
    (performBlockComparison leftBlocks rightBlocks).summary
      = ⟨(matchBlocksBySimilarity leftBlocks rightBlocks).rightUnmatched.length,
         (matchBlocksBySimilarity leftBlocks rightBlocks).leftUnmatched.length,
         ((matchBlocksBySimilarity leftBlocks rightBlocks).matchedPairs.map
            (fun m => (classifyMatch m).2.2)).sum⟩ := by
  unfold performBlockComparison matchBlocksBySimilarity
  rw [performBlockComparisonWith_eq]

/-- C2 counterexample: two images with different `src` attributes.  Both
have empty text content, so the exact pass matches them (similarity 1.0,
and the fuzzy pass contributes no pair), yet the classifier sees different
`src` values and increments `changes`: the summary is {0,0,1} although the
number of fuzzy-matched (modified) pairs is 0 — an exact match contributed
to a counter. -/
theorem c2_counterexample :
    (phase2With calculateTextSimilarity
        (phase1 [imgLeft] [imgLeft] [imgRight]).leftUnmatched
        (phase1 [imgLeft] [imgLeft] [imgRight]).leftUnmatched
        (phase1 [imgLeft] [imgLeft] [imgRight]).rightUnmatched).matchedPairs = []
    ∧ (performBlockComparison [imgLeft] [imgRight]).summary = ⟨0, 0, 1⟩ := by
  with_unfolding_all decide

/-- C3 (amended): the fuzzy pass is a best-of-all-candidates search with
threshold 0.2, not a first-above-0.6 search: the score `findBestMatch`
returns dominates the score of every same-type candidate; a selected
candidate is a genuine candidate of the probe's type realizing that score;
and the pass pairs the head block exactly when that best score exceeds
1/5. -/
theorem c3_fuzzy_policy :
    (∀ (sim : String → String → ℚ) (b c : Block) (candidates : List Block),
        c ∈ candidates → (b.type == c.type) = true →
        pairScoreWith sim b c ≤ (findBestMatchWith sim b candidates).2)
    ∧ (∀ (sim : String → String → ℚ) (b m : Block) (candidates : List Block)
        (s : ℚ),
        findBestMatchWith sim b candidates = (some m, s) →
        m ∈ candidates ∧ (b.type == m.type) = true
          ∧ pairScoreWith sim b m = s)
    ∧ (∀ (sim : String → String → ℚ) (b : Block)
        (rest workList rightList : List Block),
        ¬ ((findBestMatchWith sim b rightList).2 > 1/5) →
        phase2With sim (b :: rest) workList rightList
          = phase2With sim rest workList rightList)
    ∧ (∀ (sim : String → String → ℚ) (b m : Block)
        (rest workList rightList : List Block) (s : ℚ),
        findBestMatchWith sim b rightList = (some m, s) → s > 1/5 →
        phase2With sim (b :: rest) workList rightList
          = ⟨⟨b, m, s⟩ :: (phase2With sim rest (eraseById b.id workList)
                (eraseById m.id rightList)).matchedPairs,
             (phase2With sim rest (eraseById b.id workList)
                (eraseById m.id rightList)).leftUnmatched,
             (phase2With sim rest (eraseById b.id workList)
                (eraseById m.id rightList)).rightUnmatched⟩) := by
  refine ⟨?_, ?_, ?_, ?_⟩
  · intro sim b c candidates hc htype
    exact findBestMatchWith_max hc htype
  · intro sim b m candidates s h
    exact findBestMatchWith_some_spec h
  · intro sim b rest workList rightList hth
    cases hf : findBestMatchWith sim b rightList with
    | mk ob sc =>
      cases ob with
      | none => simp only [phase2With, hf]
      | some m =>
        rw [hf] at hth
        simp only [phase2With, hf, if_neg hth]
  · intro sim b m rest workList rightList s hf hth
    simp only [phase2With, hf, if_pos hth]

/-- C3 witness: a concrete fuzzy step.  `ordA` ("aaaa") against the single
candidate `ordD` ("aaab") has similarity 3/4; the policy theorem pairs them
because 3/4 exceeds the 1/5 threshold (although 3/4 also exceeds 0.6, the
selection came from the best-score search, as the bound shows). -/
theorem c3_fuzzy_policy_witness :
    findBestMatchWith calculateTextSimilarity ordA [ordD] = (some ordD, 3/4)
    ∧ pairScoreWith calculateTextSimilarity ordA ordD
        ≤ (findBestMatchWith calculateTextSimilarity ordA [ordD]).2
    ∧ phase2With calculateTextSimilarity [ordA] [ordA] [ordD]
        = ⟨[⟨ordA, ordD, 3/4⟩], [], []⟩ := by
  have hf : findBestMatchWith calculateTextSimilarity ordA [ordD]
      = (some ordD, 3/4) := by with_unfolding_all decide
  have hth : ((3 : ℚ)/4) > 1/5 := by norm_num
  refine ⟨hf, ?_, ?_⟩
  · exact c3_fuzzy_policy.1 calculateTextSimilarity ordA ordD [ordD]
      (List.mem_singleton.mpr rfl) (by with_unfolding_all decide)
  · rw [c3_fuzzy_policy.2.2.2 calculateTextSimilarity ordA ordD [] [ordA]
      [ordD] (3/4) hf hth]
    with_unfolding_all decide

/-- C3 counterexample: a pair with similarity exactly 1/2.  No right block
has similarity above 0.6, so under the claimed policy the left block would
remain unmatched; the code still pairs it because 1/2 exceeds the actual
0.2 threshold. -/
theorem c3_counterexample :
    calculateTextSimilarity "aaaaaaaaaa" "aaaaabbbbb" = 1/2
    ∧ ¬ ((1 : ℚ)/2 > 3/5)
    ∧ (matchBlocksBySimilarity [mkP "aaaaaaaaaa" 0]
        [mkP "aaaaabbbbb" 0]).leftUnmatched = []
    ∧ (matchBlocksBySimilarity [mkP "aaaaaaaaaa" 0]
        [mkP "aaaaabbbbb" 0]).matchedPairs.length = 1 := by
  with_unfolding_all decide

/-- C4 (amended): the exact pass compares equal type and equal TRIMMED TEXT
CONTENT — there is no normalized compareKey.  Consequently paragraph exact
matching is case-sensitive and does not collapse inner whitespace, and any
two image blocks satisfy the predicate because an image's text content is
always empty, regardless of `src`. -/
theorem c4_exact_match_criterion :
    (∀ leftBlock rightBlock : Block,
        exactMatchPred leftBlock rightBlock = true
          ↔ (rightBlock.type = leftBlock.type
              ∧ rightBlock.content.trim = leftBlock.content.trim))
    ∧ (∀ (src1 src2 id1 id2 : String) (i1 i2 : Nat),
        exactMatchPred (mkImg src1 id1 i1) (mkImg src2 id2 i2) = true)
    ∧ exactMatchPred (mkP "Hello" 0) (mkP "HELLO" 0) = false
    ∧ exactMatchPred (mkP "a  b" 0) (mkP "a b" 0) = false := by
  refine ⟨?_, ?_, by with_unfolding_all decide, by with_unfolding_all decide⟩
  · intro leftBlock rightBlock
    simp [exactMatchPred]
  · intro src1 src2 id1 id2 i1 i2
    simp [exactMatchPred, mkImg]

/-- C4 counterexample: the claim says two image blocks exact-match only
when their `src` values are equal; in the code the exact pass matches
`<img src="a.png">` with `<img src="b.png">` (their text contents are both
empty) and records it with similarity 1.0. -/
theorem c4_counterexample :
    imgLeft.src ≠ imgRight.src
    ∧ (phase1 [imgLeft] [imgLeft] [imgRight]).matchedPairs
        = [⟨imgLeft, imgRight, 1⟩]
    ∧ (matchBlocksBySimilarity [imgLeft] [imgRight]).matchedPairs
        = [⟨imgLeft, imgRight, 1⟩] := by
  with_unfolding_all decide

/-- C5: the fail-open boundary.  `compareDocumentBlocks` is total; whenever
the pipeline inside its `try` fails, the caller receives the two input
documents echoed unmodified with a zero summary, and whenever it succeeds
the caller receives the rendered results and computed summary. -/
theorem c5_fail_open (dm : DiffPrim) (leftHtml rightHtml : String)
    (leftBlocks rightBlocks : List Block) :
    (∀ e, performBlockComparisonE dm leftBlocks rightBlocks = .error e →
      compareDocumentBlocksE dm leftHtml rightHtml leftBlocks rightBlocks
        = ⟨.echoed leftHtml, .echoed rightHtml, ⟨0, 0, 0⟩⟩)
    ∧ (∀ r, performBlockComparisonE dm leftBlocks rightBlocks = .ok r →
      compareDocumentBlocksE dm leftHtml rightHtml leftBlocks rightBlocks
        = ⟨.rendered r.leftResult, .rendered r.rightResult, r.summary⟩) := by
  constructor
  · intro e he
    unfold compareDocumentBlocksE
    rw [he]
  · intro r hr
    unfold compareDocumentBlocksE
    rw [hr]

/-- C5 witness: both boundary cases at concrete inputs — a failing
primitive degrades to the echoed inputs with zero summary, and an empty
successful comparison returns its rendered (empty) results. -/
theorem c5_fail_open_witness :
    performBlockComparisonE dmFail [pathPara] [otherPara]
        = .error "diff primitive failure"
    ∧ compareDocumentBlocksE dmFail "<p>left</p>" "<p>right</p>"
        [pathPara] [otherPara]
        = ⟨.echoed "<p>left</p>", .echoed "<p>right</p>", ⟨0, 0, 0⟩⟩
    ∧ performBlockComparisonE dmOk [] [] = .ok ⟨[], [], ⟨0, 0, 0⟩⟩
    ∧ compareDocumentBlocksE dmOk "" "" [] []
        = ⟨.rendered [], .rendered [], ⟨0, 0, 0⟩⟩ := by
  have herr : performBlockComparisonE dmFail [pathPara] [otherPara]
      = .error "diff primitive failure" := by with_unfolding_all decide
  have hok : performBlockComparisonE dmOk ([] : List Block) ([] : List Block)
      = .ok ⟨[], [], ⟨0, 0, 0⟩⟩ := by with_unfolding_all decide
  exact ⟨herr,
    (c5_fail_open dmFail "<p>left</p>" "<p>right</p>" [pathPara] [otherPara]).1
      "diff primitive failure" herr,
    hok,
    (c5_fail_open dmOk "" "" [] []).2 ⟨[], [], ⟨0, 0, 0⟩⟩ hok⟩

/-- C6 (amended): no sort by index exists.  The output sequences are the
classified matched pairs in match order (exact pass first, then fuzzy
pass), then all deletions, then all additions; within each pass the left
blocks follow the traversal order (a sublist of the iterated list), but a
fuzzy pair with a smaller left index is emitted after every exact pair. -/
theorem c6_emission_order :
    (∀ (sim : String → String → ℚ) (leftBlocks rightBlocks : List Block),
      (performBlockComparisonWith sim leftBlocks rightBlocks).leftResult
        = (matchBlocksBySimilarityWith sim leftBlocks rightBlocks).matchedPairs.map
            (fun m => (classifyMatch m).1)
          ++ (matchBlocksBySimilarityWith sim leftBlocks rightBlocks).leftUnmatched.map
            OutNode.deleted
          ++ (matchBlocksBySimilarityWith sim leftBlocks rightBlocks).rightUnmatched.map
            (fun b => OutNode.placeholder b "added")
      ∧ (performBlockComparisonWith sim leftBlocks rightBlocks).rightResult
        = (matchBlocksBySimilarityWith sim leftBlocks rightBlocks).matchedPairs.map
            (fun m => (classifyMatch m).2.1)
          ++ (matchBlocksBySimilarityWith sim leftBlocks rightBlocks).leftUnmatched.map
            (fun b => OutNode.placeholder b "deleted")
          ++ (matchBlocksBySimilarityWith sim leftBlocks rightBlocks).rightUnmatched.map
            OutNode.added)
    ∧ (∀ todo workList rightList : List Block,
        List.Sublist
          ((phase1 todo workList rightList).matchedPairs.map (fun m => m.left))
          todo)
    ∧ (∀ (sim : String → String → ℚ) (todo workList rightList : List Block),
        List.Sublist
          ((phase2With sim todo workList rightList).matchedPairs.map
            (fun m => m.left))
          todo) := by
  refine ⟨?_, phase1_matched_sublist, ?_⟩
  · intro sim leftBlocks rightBlocks
    rw [performBlockComparisonWith_eq]
    exact ⟨rfl, rfl⟩
  · intro sim
    exact phase2With_matched_sublist sim

/-- C6 counterexample: left ["aaaa", "b"], right ["b", "aaab"].  The exact
pass matches "b" (left index 1) first; the fuzzy pass then matches "aaaa"
(left index 0).  The left result sequence carries left indices [1, 0] — a
strictly decreasing order, contradicting the claimed non-decreasing
`left.index` emission. -/
theorem c6_counterexample :
    ((performBlockComparison [ordA, ordB] [ordC, ordD]).leftResult.filterMap
        leftSeqIndex) = [1, 0]
    ∧ ¬ List.Pairwise (fun x y => x ≤ y) ([1, 0] : List Nat) := by
  with_unfolding_all decide

/-- C7 (amended): the word-diff round trip reproduces the TRIMMED contents:
for any paragraph pair, concatenating the literal texts of the left
output's equal and deleted spans yields `left.content.trim()` (the code
diffs the trimmed strings), and symmetrically on the right. -/
theorem c7_round_trip_trimmed (leftBlock rightBlock : Block) :
    leftLiteral (diffsOf leftBlock rightBlock) = leftBlock.content.trim
    ∧ rightLiteral (diffsOf leftBlock rightBlock)
        = rightBlock.content.trim :=
  ⟨diffMain_leftLiteral leftBlock.content.trim rightBlock.content.trim,
   diffMain_rightLiteral leftBlock.content.trim rightBlock.content.trim⟩

/-- C7 counterexample: a modified paragraph pair whose left content has
leading and trailing whitespace.  The pair is fuzzy-matched and rendered
with changes, but the concatenated left literal text is the trimmed
"Hello world", not the original content " Hello world " — the claimed
exact reproduction of `left.content` fails. -/
theorem c7_counterexample :
    (matchBlocksBySimilarity [padLeft] [padRight]).matchedPairs.length = 1
    ∧ (compareAndHighlightParagraphs padLeft padRight).hasChanges = true
    ∧ leftLiteral (diffsOf padLeft padRight) ≠ padLeft.content := by
  with_unfolding_all decide

/-- C8: self-comparison.  Comparing any extracted block list against itself
exact-matches every block with its own copy in order (no modified pairs, no
unmatched blocks on either side) and produces the zero summary. -/
theorem c8_self_comparison (blocks : List Block) :
    matchBlocksBySimilarity blocks blocks
      = ⟨blocks.map (fun b => ⟨b, b, 1⟩), [], []⟩
    ∧ (performBlockComparison blocks blocks).summary = ⟨0, 0, 0⟩ := by
  have hm := matchBlocksBySimilarityWith_self calculateTextSimilarity blocks
  constructor
  · exact hm
  · unfold performBlockComparison
    rw [performBlockComparisonWith_eq, hm]
    have hz : ((blocks.map (fun b => (⟨b, b, 1⟩ : MatchPair))).map
        (fun m => (classifyMatch m).2.2)).sum = 0 := by
      apply List.sum_eq_zero
      intro x hx
      rcases List.mem_map.mp hx with ⟨m, hmm, hxeq⟩
      rcases List.mem_map.mp hmm with ⟨b, _, hbeq⟩
      rw [← hxeq, ← hbeq]
      exact classifyMatch_self_changes b
    simp only [List.length_nil]
    rw [hz]

/-- C9 (amended): a similarity-primitive failure is NOT contained per-pair:
whenever the matcher fails (the primitive threw during the fuzzy pass), the
failure propagates through `performBlockComparison` and is caught only at
the `compareDocumentBlocks` boundary, which abandons every block and
returns the echoed inputs with a zero summary. -/
theorem c9_failure_propagates (dm : DiffPrim) (leftHtml rightHtml : String)
    (leftBlocks rightBlocks : List Block) (e : String)
    (h : matchBlocksBySimilarityE dm leftBlocks rightBlocks = .error e) :
    performBlockComparisonE dm leftBlocks rightBlocks = .error e
    ∧ compareDocumentBlocksE dm leftHtml rightHtml leftBlocks rightBlocks
        = ⟨.echoed leftHtml, .echoed rightHtml, ⟨0, 0, 0⟩⟩ := by
  have hp := performBlockComparisonE_error h
  refine ⟨hp, ?_⟩
  unfold compareDocumentBlocksE
  rw [hp]

/-- C9 witness: a primitive failing on one pathological pair aborts the
whole matcher run, and the boundary echoes the inputs. -/
theorem c9_failure_propagates_witness :
    matchBlocksBySimilarityE (dmFailOn "alpha alpha alpha")
        [pathPara, zzPara] [otherPara] = .error "pathological input"
    ∧ performBlockComparisonE (dmFailOn "alpha alpha alpha")
        [pathPara, zzPara] [otherPara] = .error "pathological input"
    ∧ compareDocumentBlocksE (dmFailOn "alpha alpha alpha") "LH" "RH"
        [pathPara, zzPara] [otherPara]
        = ⟨.echoed "LH", .echoed "RH", ⟨0, 0, 0⟩⟩ := by
  have hm : matchBlocksBySimilarityE (dmFailOn "alpha alpha alpha")
      [pathPara, zzPara] [otherPara] = .error "pathological input" := by
    with_unfolding_all decide
  exact ⟨hm,
    (c9_failure_propagates (dmFailOn "alpha alpha alpha") "LH" "RH"
      [pathPara, zzPara] [otherPara] "pathological input" hm).1,
    (c9_failure_propagates (dmFailOn "alpha alpha alpha") "LH" "RH"
      [pathPara, zzPara] [otherPara] "pathological input" hm).2⟩

/-- C9 counterexample: under the claimed per-pair containment (similarity
treated as 0 for the failing pair) the blocks not involved in the failure
would still be classified: two deletions and one addition, summary {1,2,0}.
The code instead returns the echoed inputs with summary {0,0,0} — no block
is matched or classified. -/
theorem c9_counterexample :
    compareDocumentBlocksE (dmFailOn "alpha alpha alpha") "LH" "RH"
        [pathPara, zzPara] [otherPara]
        = ⟨.echoed "LH", .echoed "RH", ⟨0, 0, 0⟩⟩
    ∧ (performBlockComparisonWith
        (calculateTextSimilarityContained (dmFailOn "alpha alpha alpha"))
        [pathPara, zzPara] [otherPara]).summary = ⟨1, 2, 0⟩
    ∧ (⟨0, 0, 0⟩ : Summary) ≠ ⟨1, 2, 0⟩ := by
  with_unfolding_all decide

/-- C10: output escaping in the word diff.  Every diff operation's text is
embedded through `escapeHtml` (equal spans directly, deleted and inserted
spans inside their annotation wrappers), and `escapeHtml` never emits an
angle bracket, so source text cannot appear as raw markup in either
output. -/
theorem c10_escaping :
    (∀ ds : List DiffEntry,
        (renderOps ds).leftHtml = String.join (ds.map leftPiece)
        ∧ (renderOps ds).rightHtml = String.join (ds.map rightPiece))
    ∧ (∀ s : String,
        ((escapeHtml s).data.all (fun c => !(c == '<') && !(c == '>')))
          = true) :=
  ⟨renderOps_join, escapeHtml_no_angle⟩

end BlockComparison
